import Mathlib

/-!
# SchemaValidator (Saxon/C API, `latest9.6/hec/Saxon.C.API/SchemaValidator.cpp`)

A shallow embedding of the native-side schema validator bridge: the two
`std::map` stores (parameters and properties), the reference counts of the
`XdmValue` objects the parameter store points to, the JNI environment's
pending-exception state, and the C++ exception snapshot held by the processor.

External collaborators whose code is not part of the translation unit (the Java
side reached through JNI, and the `SaxonProcessor` / `XdmValue` /
`SaxonApiException` member functions) are either passed in as a `Host`
record or given a definition marked "Modelled from the spec".
-/

namespace SchemaValidator

/-! ## `std::map<std::string, V>` -/

/-- Lexicographic "less" on character sequences, the order `std::less<std::string>`
puts on keys. -/
def charsLess : List Char → List Char → Bool
  | [], [] => false
  | [], _ :: _ => true
  | _ :: _, [] => false
  | a :: as, b :: bs =>
      if a.toNat < b.toNat then true
      else if b.toNat < a.toNat then false
      else charsLess as bs

/-- Key comparison of the two maps. -/
def keyLess (a b : String) : Bool := charsLess a.data b.data

/-- A `std::map<std::string, V>`, written as the list of its entries in iteration
order (`begin()` to `end()`). -/
abbrev StdMap (V : Type) := List (String × V)

/-- Representation invariant of a `std::map`: keys strictly increasing along the
iteration order (so each key occurs once). -/
def WF {V : Type} (m : StdMap V) : Prop :=
  List.Pairwise (fun a b => keyLess a.1 b.1 = true) m

/-- The mapped value under `key`, if any (`find` / `count`). -/
def mapFind {V : Type} (key : String) : StdMap V → Option V
  | [] => none
  | (k, v) :: rest => if k = key then some v else mapFind key rest

/-- The call `m.insert(std::pair(key, value))`: adds the pair at its place in key
order when no entry has that key; an existing entry is left as it is. -/
def mapInsert {V : Type} (key : String) (value : V) : StdMap V → StdMap V
  | [] => [(key, value)]
  | (k, v) :: rest =>
      if keyLess key k then (key, value) :: (k, v) :: rest
      else if k = key then (k, v) :: rest
      else (k, v) :: mapInsert key value rest

/-- The assignment `m[key] = value`: creates the entry at its place in key order or
overwrites the mapped value of the existing one. -/
def mapAssign {V : Type} (key : String) (value : V) : StdMap V → StdMap V
  | [] => [(key, value)]
  | (k, v) :: rest =>
      if keyLess key k then (key, value) :: (k, v) :: rest
      else if k = key then (k, value) :: rest
      else (k, v) :: mapAssign key value rest

/-- The call `m.erase(key)`: the map without the entry under `key`, and the number of
entries removed. -/
def mapErase {V : Type} (key : String) : StdMap V → StdMap V × Nat
  | [] => ([], 0)
  | (k, v) :: rest =>
      if k = key then (rest, 1)
      else ((k, v) :: (mapErase key rest).1, (mapErase key rest).2)

/-! ## `XdmValue` objects and their reference counts -/

/-- Address of an `XdmValue` object; a null `XdmValue*` is `none : Option Ptr`. -/
abbrev Ptr := Nat

/-- The `XdmValue` objects on the native heap as far as this file touches them:
each object's `refCount` field (a C++ `int`) and the objects `delete` was
applied to, most recent first. -/
structure Heap where
  refCount : Ptr → Int
  deleted : List Ptr

/-- Modelled from the spec: `XdmValue::incrementRefCount` (XdmValue.h is not part of
the sources) - "insertion increments the shared count". -/
def incrementRefCount (value : Ptr) (h : Heap) : Heap :=
  { h with refCount := fun p => if p = value then h.refCount p + 1 else h.refCount p }

/-- Modelled from the spec: `XdmValue::decrementRefCount` (XdmValue.h is not part of
the sources) - "decrements every stored value's shared count". -/
def decrementRefCount (value : Ptr) (h : Heap) : Heap :=
  { h with refCount := fun p => if p = value then h.refCount p - 1 else h.refCount p }

/-- Modelled from the spec: `XdmValue::getRefCount` (XdmValue.h is not part of the
sources) - the value's shared count. -/
def getRefCount (value : Ptr) (h : Heap) : Int := h.refCount value

/-- The statement `delete value;`. -/
def deleteValue (value : Ptr) (h : Heap) : Heap :=
  { h with deleted := value :: h.deleted }

/-! ## The JNI side -/

/-- A host-runtime object reference (`jobject`); a null reference is `none`. -/
inductive JObject where
  /-- The result of `NewStringUTF(s)` (or a C string passed in its place). -/
  | jstring (s : String)
  /-- The result of `value->getUnderlyingValue(proc)` for the `XdmValue` at `value`;
  the conversion belongs to the value type and is kept symbolic. -/
  | underlying (value : Ptr)
  /-- An object created by the host runtime. -/
  | handle (n : Nat)
  deriving DecidableEq

/-- Contents of a `jobjectArray`; an element never written is null (`none`). -/
abbrev JObjectArray := List (Option JObject)

/-- One `Call...Method(cppV, mID, ...)` invocation: the entry point's name and
signature, the literal arguments in order, and the two array arguments (`none`
for a null `jobjectArray`). -/
structure HostCall where
  method : String
  signature : String
  literals : List (Option JObject)
  stringArray : Option JObjectArray
  objectArray : Option JObjectArray
  deriving DecidableEq

/-- A Java throwable pending in the JNI environment. -/
structure Throwable where
  id : Nat
  deriving DecidableEq

/-- The JNI environment `sxn_environ->env`: the pending exception, and the log of
the entry-point invocations made through it, most recent first. -/
structure JEnv where
  pending : Option Throwable
  calls : List HostCall
  deriving DecidableEq

/-- Modelled from the spec: `SaxonApiException` (not part of the sources) - "an
ordered sequence of (error-code, error-message) pairs". -/
abbrev SaxonApiException := List (String × String)

/-- Modelled from the spec: `SaxonApiException::count` - "number of entries in the
current snapshot". -/
def SaxonApiException.count (e : SaxonApiException) : Int := (e.length : Int)

/-- Modelled from the spec: `SaxonApiException::getErrorCode` - the i-th entry's
code; an index outside the snapshot gives a null string. -/
def SaxonApiException.getErrorCode (e : SaxonApiException) (i : Int) : Option String :=
  if 0 ≤ i then (e.get? i.toNat).map Prod.fst else none

/-- Modelled from the spec: `SaxonApiException::getErrorMessage` - the i-th entry's
message; an index outside the snapshot gives a null string. -/
def SaxonApiException.getErrorMessage (e : SaxonApiException) (i : Int) : Option String :=
  if 0 ≤ i then (e.get? i.toNat).map Prod.snd else none

/-- What lies behind the bridge and is not in the sources: entry-point lookup and
invocation in the host runtime, and the processor's capture routine.
* `GetMethodID name sig env`: whether a method id was found, and the pending
  exception afterwards.
* `CallMethod call env`: the returned object (null for a void method) and the
  pending exception when the call returns.
* `checkForExceptionCPP env`: the snapshot `SaxonProcessor::checkForExceptionCPP`
  builds from the environment's exceptional state (null when it builds none). -/
structure Host where
  GetMethodID : String → String → JEnv → Bool × Option Throwable
  CallMethod : HostCall → JEnv → Option JObject × Option Throwable
  checkForExceptionCPP : JEnv → Option SaxonApiException

/-- JNI `ExceptionClear`. -/
def JEnv.ExceptionClear (env : JEnv) : JEnv := { env with pending := none }

/-- JNI `ExceptionCheck`. -/
def JEnv.ExceptionCheck (env : JEnv) : Bool := env.pending.isSome

/-- JNI `NewObjectArray(size, cls, 0)`: `size` null elements. -/
def NewObjectArray (size : Int) : JObjectArray := List.replicate size.toNat none

/-- JNI `SetObjectArrayElement(array, i, o)`. -/
def SetObjectArrayElement (array : JObjectArray) (i : Nat) (o : JObject) : JObjectArray :=
  array.set i (some o)

/-- Conversion of a `size_t` sum to the 32-bit `int size`. -/
def toInt32 (n : Nat) : Int :=
  if n % 2 ^ 32 < 2 ^ 31 then ((n % 2 ^ 32 : Nat) : Int) else ((n % 2 ^ 32 : Nat) : Int) - 2 ^ 32

/-! ## The validator -/

/-- The fields of `*proc` (a `SaxonProcessor`) the validator reads or writes. -/
structure SaxonProcessor where
  exception : Option SaxonApiException
  resourcesDirectory : Option String

/-- A `SchemaValidator` with everything its member functions reach: its own fields,
the processor, the JNI environment, the `XdmValue` heap and `std::cerr`. -/
structure State where
  proc : SaxonProcessor
  parameters : StdMap Ptr
  properties : StdMap String
  cwdV : String
  outputFile : String
  env : JEnv
  heap : Heap
  cerr : List String

/-- A wrapper `new XdmNode(result)` with its processor set. -/
structure XdmNode where
  value : JObject
  deriving DecidableEq

/-- Modelled from the spec: `SaxonProcessor::exceptionOccurred` (SaxonProcessor.cpp is
not part of the sources) - "host runtime reports an exceptional state". -/
def procExceptionOccurred (s : State) : Bool := s.env.ExceptionCheck

/-- Modelled from the spec: `SaxonProcessor::exceptionClear` (SaxonProcessor.cpp is not
part of the sources) - "clear the host runtime's exceptional state". -/
def procExceptionClear (s : State) : State := { s with env := s.env.ExceptionClear }

/-- The member function `exceptionOccurred` (lines 448-450). -/
def exceptionOccurred (s : State) : Bool :=
  procExceptionOccurred s || s.proc.exception.isSome

/-- The member function `exceptionCount` (lines 460-465). -/
def exceptionCount (s : State) : Int :=
  match s.proc.exception with
  | some e => e.count
  | none => 0

/-- The member function `getErrorCode` (lines 438-441). -/
def getErrorCode (i : Int) (s : State) : Option String :=
  match s.proc.exception with
  | none => none
  | some e => e.getErrorCode i

/-- The member function `getErrorMessage` (lines 443-446). -/
def getErrorMessage (i : Int) (s : State) : Option String :=
  match s.proc.exception with
  | none => none
  | some e => e.getErrorMessage i

/-- The member function `exceptionClear` (lines 430-436): delete the snapshot and null
the pointer, then `ExceptionClear` on the environment. -/
def exceptionClear (s : State) : State :=
  let s1 : State :=
    match s.proc.exception with
    | some _ => { s with proc := { s.proc with exception := none } }
    | none => s
  { s1 with env := s1.env.ExceptionClear }

/-- The member function `setParameter` (lines 476-481). -/
def setParameter (name : String) (value : Option Ptr) (s : State) : State :=
  match value with
  | some v =>
      { s with heap := incrementRefCount v s.heap,
               parameters := mapAssign ("param:" ++ name) v s.parameters }
  | none => s

/-- The member function `removeParameter` (lines 483-485). -/
def removeParameter (name : String) (s : State) : Bool × State :=
  (decide ((mapErase ("param:" ++ name) s.parameters).2 ≠ 0),
   { s with parameters := (mapErase ("param:" ++ name) s.parameters).1 })

/-- The member function `setProperty` (lines 487-494); a null `value` is stored as
the empty string. -/
def setProperty (name : String) (value : Option String) (s : State) : State :=
  { s with properties :=
      mapInsert name (match value with | none => "" | some v => v) s.properties }

/-- The loop of `clearParameters` (lines 498-507) over the entries still to visit. -/
def clearLoop : StdMap Ptr → Heap → Heap
  | [], h => h
  | (_, value) :: rest, h =>
      let h1 := decrementRefCount value h
      let h2 := if getRefCount value h1 < 1 then deleteValue value h1 else h1
      clearLoop rest h2

/-- The member function `clearParameters` (lines 496-510). -/
def clearParameters (delVal : Bool) (s : State) : State :=
  if delVal then
    { s with heap := clearLoop s.parameters s.heap, parameters := [] }
  else s

/-- The member function `clearProperties` (lines 512-514). -/
def clearProperties (s : State) : State := { s with properties := [] }

/-- First marshalling loop (lines 113-133, 201-221, 291-312, 379-399): one name and
one converted value per parameter, from index `i` on. -/
def fillParameters : StdMap Ptr → Nat → JObjectArray → JObjectArray →
    Nat × JObjectArray × JObjectArray
  | [], i, stringArray, objectArray => (i, stringArray, objectArray)
  | (k, v) :: rest, i, stringArray, objectArray =>
      fillParameters rest (i + 1)
        (SetObjectArrayElement stringArray i (JObject.jstring k))
        (SetObjectArrayElement objectArray i (JObject.underlying v))

/-- Second marshalling loop (lines 134-140, 222-228, 313-320, 400-406): one name and
one string value per property, continuing at index `i`. -/
def fillProperties : StdMap String → Nat → JObjectArray → JObjectArray →
    Nat × JObjectArray × JObjectArray
  | [], i, stringArray, objectArray => (i, stringArray, objectArray)
  | (k, v) :: rest, i, stringArray, objectArray =>
      fillProperties rest (i + 1)
        (SetObjectArrayElement stringArray i (JObject.jstring k))
        (SetObjectArrayElement objectArray i (JObject.jstring v))

/-- The marshalling block, the same text in all four operations (lines 96-141,
183-229, 274-321, 362-407): the `stringArray` and `objectArray` handed to the
host, null unless `size > 0`. -/
def marshal (parameters : StdMap Ptr) (properties : StdMap String) :
    Option JObjectArray × Option JObjectArray :=
  let size : Int := toInt32 (parameters.length + properties.length)
  if size > 0 then
    let objectArray := NewObjectArray size
    let stringArray := NewObjectArray size
    let r1 := fillParameters parameters 0 stringArray objectArray
    let r2 := fillProperties properties r1.1 r1.2.1 r1.2.2
    (some r2.2.1, some r2.2.2)
  else (none, none)

/-- The fault check that follows the host call in `registerSchemaFromFile`,
`registerSchemaFromString` and `validate` (lines 153-165, 243-255, 331-344):
when `exceptionOccurred()`, the old snapshot is deleted, a new one is taken with
`checkForExceptionCPP`, and the processor clears the exceptional state. -/
def faultCheck (x : Host) (s : State) : State :=
  if exceptionOccurred s then
    procExceptionClear
      { s with proc := { s.proc with exception := x.checkForExceptionCPP s.env } }
  else s

/-- The lookup `GetMethodID(cppClass, name, sig)`: the state after it and whether a
method id came back. -/
def lookupMethod (x : Host) (name sig : String) (s : State) : Bool × State :=
  ((x.GetMethodID name sig s.env).1,
   { s with env := { s.env with pending := (x.GetMethodID name sig s.env).2 } })

/-- One `Call...Method` through the environment: the call is logged, the host decides
the returned object and the pending exception. -/
def invoke (x : Host) (call : HostCall) (s : State) : Option JObject × State :=
  ((x.CallMethod call s.env).1,
   { s with env := { pending := (x.CallMethod call s.env).2, calls := call :: s.env.calls } })

/-- Name and JNI signature `registerSchemaFromFile` looks up. -/
def registerSchemaEntry : String × String :=
  ("registerSchema",
   "(Ljava/lang/String;Ljava/lang/String;[Ljava/lang/String;[Ljava/lang/Object;)V")

/-- Name and JNI signature `registerSchemaFromString` looks up. -/
def registerSchemaStringEntry : String × String :=
  ("registerSchemaString",
   "(Ljava/lang/String;Ljava/lang/String;Ljava/lang/String;[Ljava/lang/String;[Ljava/lang/Object;)V")

/-- Name and JNI signature `validate` looks up. -/
def validateEntry : String × String :=
  ("validate",
   "(Ljava/lang/String;Ljava/lang/String;Ljava/lang/String;[Ljava/lang/String;[Ljava/lang/Object;)V")

/-- Name and JNI signature `validateToNode` looks up. -/
def validateToNodeEntry : String × String :=
  ("validateToNode",
   "(Ljava/lang/String;Ljava/lang/String;[Ljava/lang/String;[Ljava/lang/Object;)Lnet/sf/saxon/s9api/XdmNode;")

/-- The member function `registerSchemaFromFile` (lines 83-166). -/
def registerSchemaFromFile (x : Host) (sourceFile : Option String) (s : State) : State :=
  match sourceFile with
  | none =>
      { s with cerr := s.cerr ++ ["Error:: sourceFile string cannot be empty or NULL"] }
  | some src =>
      let l := lookupMethod x registerSchemaEntry.1 registerSchemaEntry.2 s
      let s2 : State :=
        if l.1 = false then
          { l.2 with cerr := l.2.cerr ++ ["Error: libsaxon.validate not found\n"] }
        else
          let arrays := marshal l.2.parameters l.2.properties
          (invoke x
            { method := registerSchemaEntry.1, signature := registerSchemaEntry.2,
              literals := [some (JObject.jstring l.2.cwdV), some (JObject.jstring src)],
              stringArray := arrays.1, objectArray := arrays.2 } l.2).2
      faultCheck x s2

/-- The member function `registerSchemaFromString` (lines 168-258). -/
def registerSchemaFromString (x : Host) (sourceStr : Option String) (s : State) : State :=
  let s0 := setProperty "resources" s.proc.resourcesDirectory s
  match sourceStr with
  | none =>
      { s0 with cerr := s0.cerr ++ ["Error:: Schema string cannot be empty or NULL"] }
  | some src =>
      let l := lookupMethod x registerSchemaStringEntry.1 registerSchemaStringEntry.2 s0
      let s2 : State :=
        if l.1 = false then
          { l.2 with cerr := l.2.cerr ++ ["Error: libsaxon.registerSchemaString not found\n"] }
        else
          let arrays := marshal l.2.parameters l.2.properties
          (invoke x
            { method := registerSchemaStringEntry.1, signature := registerSchemaStringEntry.2,
              literals := [some (JObject.jstring l.2.cwdV), some (JObject.jstring src), none],
              stringArray := arrays.1, objectArray := arrays.2 } l.2).2
      faultCheck x s2

/-- The member function `validate` (lines 260-346); the fault check sits inside the
branch that made the call. -/
def validate (x : Host) (sourceFile : Option String) (s : State) : State :=
  let s0 := setProperty "resources" s.proc.resourcesDirectory s
  let l := lookupMethod x validateEntry.1 validateEntry.2 s0
  if l.1 = false then
    { l.2 with cerr := l.2.cerr ++ ["Error: libsaxon.validate not found\n"] }
  else
    let arrays := marshal l.2.parameters l.2.properties
    let s2 := (invoke x
      { method := validateEntry.1, signature := validateEntry.2,
        literals := [some (JObject.jstring l.2.cwdV),
                     sourceFile.map JObject.jstring,
                     if l.2.outputFile.isEmpty then none
                     else some (JObject.jstring l.2.outputFile)],
        stringArray := arrays.1, objectArray := arrays.2 } l.2).2
    faultCheck x s2

/-- The member function `validateToNode` (lines 348-428). A non-null result returns
the wrapper at once; every other path ends in the bare `ExceptionClear()` of line
426 and runs off the end of the function, taken here as returning null. -/
def validateToNode (x : Host) (sourceFile : Option String) (s : State) :
    Option XdmNode × State :=
  match sourceFile with
  | none =>
      (none,
       { s with cerr := s.cerr ++ ["Error:: source file string cannot be empty or NULL"] })
  | some src =>
      let s0 := setProperty "resources" s.proc.resourcesDirectory s
      let l := lookupMethod x validateToNodeEntry.1 validateToNodeEntry.2 s0
      if l.1 = false then
        let s1 : State := { l.2 with cerr := l.2.cerr ++ ["Error: libsaxon.validate not found\n"] }
        (none, { s1 with env := s1.env.ExceptionClear })
      else
        let arrays := marshal l.2.parameters l.2.properties
        let r := invoke x
          { method := validateToNodeEntry.1, signature := validateToNodeEntry.2,
            literals := [some (JObject.jstring l.2.cwdV), some (JObject.jstring src)],
            stringArray := arrays.1, objectArray := arrays.2 } l.2
        match r.1 with
        | some result => (some { value := result }, r.2)
        | none => (none, { r.2 with env := r.2.env.ExceptionClear })

/-! ## The four operations, taken together -/

/-- The four operations that call into the host. -/
inductive Op where
  | registerSchemaFromFile
  | registerSchemaFromString
  | validate
  | validateToNode
  deriving DecidableEq

/-- Name and signature of the entry point an operation looks up. -/
def Op.entry : Op → String × String
  | Op.registerSchemaFromFile => registerSchemaEntry
  | Op.registerSchemaFromString => registerSchemaStringEntry
  | Op.validate => validateEntry
  | Op.validateToNode => validateToNodeEntry

/-- The state an operation leaves behind. -/
def Op.run (op : Op) (x : Host) (source : Option String) (s : State) : State :=
  match op with
  | Op.registerSchemaFromFile => SchemaValidator.registerSchemaFromFile x source s
  | Op.registerSchemaFromString => SchemaValidator.registerSchemaFromString x source s
  | Op.validate => SchemaValidator.validate x source s
  | Op.validateToNode => (SchemaValidator.validateToNode x source s).2

/-! ## Sample hosts and states for the worked examples -/

/-- A capture routine: one (code, message) entry when an exception is pending, no
snapshot otherwise. -/
def sampleCapture (env : JEnv) : Option SaxonApiException :=
  match env.pending with
  | some _ => some [("XSD99999", "document is not valid")]
  | none => none

/-- A host in which every entry point resolves, and a call faults (null result,
exception pending) exactly when its source argument is the string "bad.xml";
any other call of `validateToNode` returns a document handle. -/
def sampleHost : Host :=
  { GetMethodID := fun _ _ env => (true, env.pending),
    CallMethod := fun call env =>
      if call.literals.get? 1 = some (some (JObject.jstring "bad.xml")) then
        (none, some { id := 1 })
      else if call.method = "validateToNode" then (some (JObject.handle 7), env.pending)
      else (none, env.pending),
    checkForExceptionCPP := sampleCapture }

/-- A freshly constructed validator: empty stores, no snapshot, nothing pending, every
reference count zero. -/
def freshState : State :=
  { proc := { exception := none, resourcesDirectory := some "/opt/saxon/saxon-data" },
    parameters := [],
    properties := [],
    cwdV := "/work",
    outputFile := "",
    env := { pending := none, calls := [] },
    heap := { refCount := fun _ => 0, deleted := [] },
    cerr := [] }

/-- The scenario of two parameters and one property set before an operation. -/
def scenarioState : State :=
  setProperty "indent" (some "yes")
    (setParameter "b" (some 2) (setParameter "a" (some 1) freshState))

/-- A store with two parameters: the value at 10 is held by the store alone (count 1
after `setParameter`), the value at 11 has one more holder (count 2). -/
def sharedState : State :=
  setParameter "b" (some 11)
    (setParameter "a" (some 10)
      { freshState with heap := { refCount := fun p => if p = 11 then 1 else 0, deleted := [] } })

/-! ## Properties stated over the operations -/

/-- The shape asked of the two array arguments of `call` for the maps `ps` and `qs`
as they stand at dispatch: with `N` the number of entries of both maps together,
no array at all when `N = 0`; otherwise two arrays of length `N`, where index
`i` holds the name and the converted value of the `i`-th parameter and index
`ps.length + j` the name and the string value of the `j`-th property. Every entry
of the two maps thus sits at one index of its own, parameters below properties. -/
def Marshalled (ps : StdMap Ptr) (qs : StdMap String) (call : HostCall) : Prop :=
  (ps.length + qs.length = 0 → call.stringArray = none ∧ call.objectArray = none) ∧
  (0 < ps.length + qs.length →
    ∃ names values : JObjectArray,
      call.stringArray = some names ∧ call.objectArray = some values ∧
      names.length = ps.length + qs.length ∧ values.length = ps.length + qs.length ∧
      (∀ (i : Nat) (e : String × Ptr), ps[i]? = some e →
        names[i]? = some (some (JObject.jstring e.1)) ∧
        values[i]? = some (some (JObject.underlying e.2))) ∧
      (∀ (j : Nat) (e : String × String), qs[j]? = some e →
        names[ps.length + j]? = some (some (JObject.jstring e.1)) ∧
        values[ps.length + j]? = some (some (JObject.jstring e.2))))

/-! ## The key order is a strict total order -/

theorem charsLess_irrefl (a : List Char) : charsLess a a = false := by
  induction a with
  | nil => rfl
  | cons c cs ih => simp [charsLess, ih]

theorem charsLess_trans : ∀ (a b c : List Char),
    charsLess a b = true → charsLess b c = true → charsLess a c = true := by
  intro a
  induction a with
  | nil =>
      intro b c hab hbc
      cases b with
      | nil => simp [charsLess] at hab
      | cons y ys =>
          cases c with
          | nil => simp [charsLess] at hbc
          | cons z zs => simp [charsLess]
  | cons x xs ih =>
      intro b c hab hbc
      cases b with
      | nil => simp [charsLess] at hab
      | cons y ys =>
          cases c with
          | nil => simp [charsLess] at hbc
          | cons z zs =>
              simp only [charsLess] at hab hbc ⊢
              split_ifs at hab hbc ⊢ <;> first | rfl | omega | exact ih _ _ hab hbc

theorem charsLess_total : ∀ (a b : List Char),
    charsLess a b = false → a ≠ b → charsLess b a = true := by
  intro a
  induction a with
  | nil =>
      intro b hab hne
      cases b with
      | nil => exact absurd rfl hne
      | cons y ys => simp [charsLess] at hab
  | cons x xs ih =>
      intro b hab hne
      cases b with
      | nil => simp [charsLess]
      | cons y ys =>
          simp only [charsLess] at hab ⊢
          split_ifs at hab ⊢ <;> first | rfl | omega | skip
          have hxy : x = y := by
            apply Char.ext
            apply UInt32.ext
            simp only [Char.toNat] at *
            omega
          subst hxy
          exact ih ys hab (fun h => hne (by rw [h]))

theorem keyLess_irrefl (a : String) : keyLess a a = false := charsLess_irrefl a.data

theorem keyLess_ne {a b : String} (h : keyLess a b = true) : a ≠ b := by
  intro hab
  subst hab
  rw [keyLess_irrefl] at h
  exact Bool.noConfusion h

theorem keyLess_trans {a b c : String} (hab : keyLess a b = true) (hbc : keyLess b c = true) :
    keyLess a c = true := charsLess_trans _ _ _ hab hbc

theorem keyLess_total {a b : String} (hab : keyLess a b = false) (hne : a ≠ b) :
    keyLess b a = true :=
  charsLess_total _ _ hab (fun h => hne (String.ext h))



/-! ## The map operations: lookups after an update, and the invariant -/

theorem WF_cons {V : Type} (e : String × V) (m : StdMap V) :
    WF (e :: m) ↔ (∀ e' ∈ m, keyLess e.1 e'.1 = true) ∧ WF m := by
  unfold WF
  exact List.pairwise_cons

theorem mapFind_eq_none_of_forall_ne {V : Type} (key : String) (m : StdMap V)
    (h : ∀ e ∈ m, e.1 ≠ key) : mapFind key m = none := by
  induction m with
  | nil => rfl
  | cons e rest ih =>
      obtain ⟨k, w⟩ := e
      have hk : k ≠ key := h (k, w) (List.mem_cons_self _ _)
      simp only [mapFind, if_neg hk]
      exact ih (fun e he => h e (List.mem_cons_of_mem _ he))

theorem mapFind_mem {V : Type} (key : String) (v : V) (m : StdMap V)
    (h : mapFind key m = some v) : (key, v) ∈ m := by
  induction m with
  | nil => simp [mapFind] at h
  | cons e rest ih =>
      obtain ⟨k, w⟩ := e
      simp only [mapFind] at h
      split_ifs at h with hk
      · subst hk
        cases h
        exact List.mem_cons_self _ _
      · exact List.mem_cons_of_mem _ (ih h)

theorem mapFind_of_mem {V : Type} (key : String) (v : V) (m : StdMap V) (hwf : WF m)
    (h : (key, v) ∈ m) : mapFind key m = some v := by
  induction m with
  | nil => cases h
  | cons e rest ih =>
      obtain ⟨k, w⟩ := e
      rw [WF_cons] at hwf
      simp only [mapFind]
      rcases List.mem_cons.mp h with heq | hmem
      · cases heq
        simp
      · have hne : k ≠ key := keyLess_ne (hwf.1 (key, v) hmem)
        rw [if_neg hne]
        exact ih hwf.2 hmem

theorem mapFind_mapAssign_self {V : Type} (key : String) (v : V) (m : StdMap V) :
    mapFind key (mapAssign key v m) = some v := by
  induction m with
  | nil => simp [mapAssign, mapFind]
  | cons e rest ih =>
      obtain ⟨k, w⟩ := e
      simp only [mapAssign]
      split_ifs with h1 h2
      · simp [mapFind]
      · simp [mapFind, h2]
      · simp [mapFind, h2, ih]

theorem mapFind_mapAssign_other {V : Type} (key k' : String) (v : V) (m : StdMap V)
    (hne : k' ≠ key) : mapFind k' (mapAssign key v m) = mapFind k' m := by
  induction m with
  | nil => simp [mapAssign, mapFind, Ne.symm hne]
  | cons e rest ih =>
      obtain ⟨k, w⟩ := e
      simp only [mapAssign]
      split_ifs with h1 h2
      · simp [mapFind, Ne.symm hne]
      · subst h2
        simp [mapFind, Ne.symm hne]
      · simp only [mapFind, ih]

theorem keys_mapAssign {V : Type} (key : String) (v : V) (m : StdMap V) :
    ∀ e ∈ mapAssign key v m, e.1 = key ∨ ∃ e' ∈ m, e'.1 = e.1 := by
  induction m with
  | nil =>
      intro e he
      simp [mapAssign] at he
      exact Or.inl (by rw [he])
  | cons e0 rest ih =>
      obtain ⟨k, w⟩ := e0
      intro e he
      simp only [mapAssign] at he
      split_ifs at he with h1 h2
      · rcases List.mem_cons.mp he with heq | hmem
        · exact Or.inl (by rw [heq])
        · exact Or.inr ⟨e, hmem, rfl⟩
      · rcases List.mem_cons.mp he with heq | hmem
        · exact Or.inl (by rw [heq]; exact h2)
        · exact Or.inr ⟨e, List.mem_cons_of_mem _ hmem, rfl⟩
      · rcases List.mem_cons.mp he with heq | hmem
        · exact Or.inr ⟨(k, w), List.mem_cons_self _ _, by rw [heq]⟩
        · rcases ih e hmem with hk | ⟨e', he', hk⟩
          · exact Or.inl hk
          · exact Or.inr ⟨e', List.mem_cons_of_mem _ he', hk⟩

theorem mapAssign_WF {V : Type} (key : String) (v : V) (m : StdMap V) (hwf : WF m) :
    WF (mapAssign key v m) := by
  induction m with
  | nil => simp [mapAssign, WF]
  | cons e0 rest ih =>
      obtain ⟨k, w⟩ := e0
      rw [WF_cons] at hwf
      simp only [mapAssign]
      split_ifs with h1 h2
      · rw [WF_cons]
        refine ⟨?_, (WF_cons _ _).mpr hwf⟩
        intro e he
        rcases List.mem_cons.mp he with heq | hmem
        · rw [heq]; exact h1
        · exact keyLess_trans h1 (hwf.1 e hmem)
      · rw [WF_cons]
        exact ⟨hwf.1, hwf.2⟩
      · rw [WF_cons]
        refine ⟨?_, ih hwf.2⟩
        have hk : keyLess k key = true :=
          keyLess_total (by simpa using h1) (fun h => h2 h.symm)
        intro e he
        rcases keys_mapAssign key v rest e he with hke | ⟨e', he', hke⟩
        · rw [hke]; exact hk
        · rw [← hke]; exact hwf.1 e' he'

theorem mapFind_mapInsert_fresh {V : Type} (key : String) (v : V) (m : StdMap V)
    (h : mapFind key m = none) : mapFind key (mapInsert key v m) = some v := by
  induction m with
  | nil => simp [mapInsert, mapFind]
  | cons e rest ih =>
      obtain ⟨k, w⟩ := e
      simp only [mapFind] at h
      split_ifs at h with hk
      simp only [mapInsert]
      split_ifs with h1
      · simp [mapFind]
      · simp only [mapFind, if_neg hk]
        exact ih h

theorem mapFind_mapInsert_other {V : Type} (key k' : String) (v : V) (m : StdMap V)
    (hne : k' ≠ key) : mapFind k' (mapInsert key v m) = mapFind k' m := by
  induction m with
  | nil => simp [mapInsert, mapFind, Ne.symm hne]
  | cons e rest ih =>
      obtain ⟨k, w⟩ := e
      simp only [mapInsert]
      split_ifs with h1 h2
      · simp [mapFind, Ne.symm hne]
      · rfl
      · simp only [mapFind, ih]

theorem mapInsert_bound {V : Type} (key : String) (v w : V) (m : StdMap V) (hwf : WF m)
    (h : mapFind key m = some w) : mapInsert key v m = m := by
  induction m with
  | nil => simp [mapFind] at h
  | cons e rest ih =>
      obtain ⟨k, u⟩ := e
      rw [WF_cons] at hwf
      simp only [mapInsert]
      split_ifs with h1 h2
      · exfalso
        have hnone : mapFind key ((k, u) :: rest) = none := by
          apply mapFind_eq_none_of_forall_ne
          intro e he
          rcases List.mem_cons.mp he with heq | hmem
          · rw [heq]; exact (keyLess_ne h1).symm
          · exact (keyLess_ne (keyLess_trans h1 (hwf.1 e hmem))).symm
        rw [hnone] at h
        cases h
      · rfl
      · simp only [mapFind, if_neg h2] at h
        rw [ih hwf.2 h]

theorem mapErase_count {V : Type} (key : String) (m : StdMap V) :
    (mapErase key m).2 ≠ 0 ↔ (mapFind key m).isSome = true := by
  induction m with
  | nil => simp [mapErase, mapFind]
  | cons e rest ih =>
      obtain ⟨k, w⟩ := e
      simp only [mapErase, mapFind]
      split_ifs with hk
      · simp
      · exact ih

theorem mapFind_mapErase_other {V : Type} (key k' : String) (m : StdMap V) (hne : k' ≠ key) :
    mapFind k' (mapErase key m).1 = mapFind k' m := by
  induction m with
  | nil => rfl
  | cons e rest ih =>
      obtain ⟨k, w⟩ := e
      simp only [mapErase]
      split_ifs with hk
      · subst hk
        simp [mapFind, Ne.symm hne]
      · simp only [mapFind, ih]

theorem mapErase_eq_filter {V : Type} (key : String) (m : StdMap V) (hwf : WF m) :
    (mapErase key m).1 = m.filter (fun e => decide (e.1 ≠ key)) := by
  induction m with
  | nil => rfl
  | cons e rest ih =>
      obtain ⟨k, w⟩ := e
      rw [WF_cons] at hwf
      simp only [mapErase]
      split_ifs with hk
      · subst hk
        have hall : ∀ e ∈ rest, decide (e.1 ≠ k) = true := by
          intro e he
          simpa using (keyLess_ne (hwf.1 e he)).symm
        rw [List.filter_cons_of_neg (by simp), List.filter_eq_self.mpr hall]
      · rw [List.filter_cons_of_pos (by simpa using hk), ih hwf.2]

theorem mapFind_mapErase_self {V : Type} (key : String) (m : StdMap V) (hwf : WF m) :
    mapFind key (mapErase key m).1 = none := by
  apply mapFind_eq_none_of_forall_ne
  intro e he
  rw [mapErase_eq_filter key m hwf] at he
  simpa using (List.mem_filter.mp he).2

theorem mapErase_WF {V : Type} (key : String) (m : StdMap V) (hwf : WF m) :
    WF (mapErase key m).1 := by
  rw [mapErase_eq_filter key m hwf]
  exact List.Pairwise.sublist (List.filter_sublist _) hwf

theorem mapInsert_WF {V : Type} (key : String) (v : V) (m : StdMap V) (hwf : WF m) :
    WF (mapInsert key v m) := by
  induction m with
  | nil => simp [mapInsert, WF]
  | cons e0 rest ih =>
      obtain ⟨k, w⟩ := e0
      have hwf0 := hwf
      rw [WF_cons] at hwf
      simp only [mapInsert]
      split_ifs with h1 h2
      · rw [WF_cons]
        refine ⟨?_, hwf0⟩
        intro e he
        rcases List.mem_cons.mp he with heq | hmem
        · rw [heq]; exact h1
        · exact keyLess_trans h1 (hwf.1 e hmem)
      · exact hwf0
      · rw [WF_cons]
        refine ⟨?_, ih hwf.2⟩
        have hk : keyLess k key = true :=
          keyLess_total (by simpa using h1) (fun h => h2 h.symm)
        intro e he
        by_cases hek : e.1 = key
        · rw [hek]; exact hk
        · have h3 : mapFind e.1 (mapInsert key v rest) = mapFind e.1 rest :=
            mapFind_mapInsert_other key e.1 v rest hek
          have hwf' := ih hwf.2
          have h4 := mapFind_of_mem e.1 e.2 _ hwf' he
          rw [h3] at h4
          exact hwf.1 _ (mapFind_mem _ _ _ h4)

/-! ## Marshalling -/

theorem toInt32_of_lt (n : Nat) (h : n < 2 ^ 31) : toInt32 n = (n : Int) := by
  unfold toInt32
  have h1 : n % 2 ^ 32 = n := Nat.mod_eq_of_lt (by omega)
  rw [h1, if_pos h]

theorem set_after_front (A R : JObjectArray) (y : Option JObject) :
    (A ++ none :: R).set A.length y = A ++ y :: R := by
  induction A with
  | nil => rfl
  | cons a A ih => simp [List.set, ih]

theorem fillParameters_spec : ∀ (ps : StdMap Ptr) (A B : JObjectArray) (n : Nat),
    B.length = A.length →
    fillParameters ps A.length
        (A ++ List.replicate (ps.length + n) none) (B ++ List.replicate (ps.length + n) none)
      = (A.length + ps.length,
         A ++ ps.map (fun e => some (JObject.jstring e.1)) ++ List.replicate n none,
         B ++ ps.map (fun e => some (JObject.underlying e.2)) ++ List.replicate n none) := by
  intro ps
  induction ps with
  | nil => intro A B n _; simp [fillParameters]
  | cons e rest ih =>
      intro A B n hlen
      obtain ⟨k, v⟩ := e
      have hrep : List.replicate (((k, v) :: rest).length + n) (none : Option JObject)
          = none :: List.replicate (rest.length + n) none := by
        rw [List.length_cons, Nat.add_right_comm, List.replicate_succ]
      simp only [fillParameters, SetObjectArrayElement]
      rw [hrep, set_after_front]
      have hB : (B ++ none :: List.replicate (rest.length + n) none).set A.length
            (some (JObject.underlying v))
          = B ++ some (JObject.underlying v) :: List.replicate (rest.length + n) none := by
        rw [← hlen, set_after_front]
      rw [hB]
      have h1 : A ++ some (JObject.jstring k) :: List.replicate (rest.length + n) none
          = (A ++ [some (JObject.jstring k)]) ++ List.replicate (rest.length + n) none := by
        simp
      have h2 : B ++ some (JObject.underlying v) :: List.replicate (rest.length + n) none
          = (B ++ [some (JObject.underlying v)]) ++ List.replicate (rest.length + n) none := by
        simp
      have h3 : A.length + 1 = (A ++ [some (JObject.jstring k)]).length := by simp
      rw [h1, h2, h3, ih _ _ n (by simp [hlen])]
      simp [Nat.add_assoc, Nat.add_comm 1]

theorem fillProperties_spec : ∀ (qs : StdMap String) (A B : JObjectArray) (n : Nat),
    B.length = A.length →
    fillProperties qs A.length
        (A ++ List.replicate (qs.length + n) none) (B ++ List.replicate (qs.length + n) none)
      = (A.length + qs.length,
         A ++ qs.map (fun e => some (JObject.jstring e.1)) ++ List.replicate n none,
         B ++ qs.map (fun e => some (JObject.jstring e.2)) ++ List.replicate n none) := by
  intro qs
  induction qs with
  | nil => intro A B n _; simp [fillProperties]
  | cons e rest ih =>
      intro A B n hlen
      obtain ⟨k, v⟩ := e
      have hrep : List.replicate (((k, v) :: rest).length + n) (none : Option JObject)
          = none :: List.replicate (rest.length + n) none := by
        rw [List.length_cons, Nat.add_right_comm, List.replicate_succ]
      simp only [fillProperties, SetObjectArrayElement]
      rw [hrep, set_after_front]
      have hB : (B ++ none :: List.replicate (rest.length + n) none).set A.length
            (some (JObject.jstring v))
          = B ++ some (JObject.jstring v) :: List.replicate (rest.length + n) none := by
        rw [← hlen, set_after_front]
      rw [hB]
      have h1 : A ++ some (JObject.jstring k) :: List.replicate (rest.length + n) none
          = (A ++ [some (JObject.jstring k)]) ++ List.replicate (rest.length + n) none := by
        simp
      have h2 : B ++ some (JObject.jstring v) :: List.replicate (rest.length + n) none
          = (B ++ [some (JObject.jstring v)]) ++ List.replicate (rest.length + n) none := by
        simp
      have h3 : A.length + 1 = (A ++ [some (JObject.jstring k)]).length := by simp
      rw [h1, h2, h3, ih _ _ n (by simp [hlen])]
      simp [Nat.add_assoc, Nat.add_comm 1]

theorem marshal_zero (ps : StdMap Ptr) (qs : StdMap String) (h : ps.length + qs.length = 0) :
    marshal ps qs = (none, none) := by
  unfold marshal
  rw [h]
  rfl

theorem marshal_pos (ps : StdMap Ptr) (qs : StdMap String)
    (hpos : 0 < ps.length + qs.length) (hlt : ps.length + qs.length < 2 ^ 31) :
    marshal ps qs =
      (some (ps.map (fun e => some (JObject.jstring e.1))
              ++ qs.map (fun e => some (JObject.jstring e.1))),
       some (ps.map (fun e => some (JObject.underlying e.2))
              ++ qs.map (fun e => some (JObject.jstring e.2)))) := by
  unfold marshal
  simp only [toInt32_of_lt _ hlt]
  have hgt : ((ps.length + qs.length : Nat) : Int) > 0 := by omega
  rw [if_pos hgt]
  simp only [NewObjectArray, Int.toNat_ofNat]
  have hp := fillParameters_spec ps [] [] qs.length rfl
  simp only [List.nil_append, List.length_nil, Nat.zero_add] at hp
  rw [hp]
  have hq := fillProperties_spec qs (ps.map (fun e => some (JObject.jstring e.1)))
    (ps.map (fun e => some (JObject.underlying e.2))) 0 (by simp)
  simp only [Nat.add_zero, List.replicate_zero, List.append_nil, List.length_map] at hq
  simp only [hq]

theorem marshal_Marshalled (ps : StdMap Ptr) (qs : StdMap String) (call : HostCall)
    (hlt : ps.length + qs.length < 2 ^ 31)
    (h1 : call.stringArray = (marshal ps qs).1) (h2 : call.objectArray = (marshal ps qs).2) :
    Marshalled ps qs call := by
  constructor
  · intro h0
    rw [h1, h2, marshal_zero ps qs h0]
    exact ⟨rfl, rfl⟩
  · intro hpos
    rw [marshal_pos ps qs hpos hlt] at h1 h2
    refine ⟨_, _, h1, h2, by simp, by simp, ?_, ?_⟩
    · intro i e hi
      have hlt : i < ps.length := by
        rcases Nat.lt_or_ge i ps.length with h | h
        · exact h
        · rw [List.getElem?_eq_none h] at hi; cases hi
      constructor
      · rw [List.getElem?_append_left (by simpa using hlt), List.getElem?_map, hi]; rfl
      · rw [List.getElem?_append_left (by simpa using hlt), List.getElem?_map, hi]; rfl
    · intro j e hj
      constructor
      · rw [List.getElem?_append_right (by simp)]
        simp [hj]
      · rw [List.getElem?_append_right (by simp)]
        simp [hj]

theorem faultCheck_parameters (x : Host) (s : State) :
    (faultCheck x s).parameters = s.parameters := by
  unfold faultCheck procExceptionClear
  split_ifs <;> rfl

theorem faultCheck_properties (x : Host) (s : State) :
    (faultCheck x s).properties = s.properties := by
  unfold faultCheck procExceptionClear
  split_ifs <;> rfl

theorem faultCheck_calls (x : Host) (s : State) :
    (faultCheck x s).env.calls = s.env.calls := by
  unfold faultCheck procExceptionClear
  split_ifs <;> rfl

theorem faultCheck_heap (x : Host) (s : State) :
    (faultCheck x s).heap = s.heap := by
  unfold faultCheck procExceptionClear
  split_ifs <;> rfl

/-- C3: for each of the four operations, called with a source it accepts and an entry
point that resolves, the host receives one call whose two array arguments are
marshalled from the parameter and property maps as they stand at dispatch (the
caller's parameters; the caller's properties, after `setProperty` of "resources"
in the three operations that do it): null arrays when the maps are empty,
otherwise two arrays of length N with each entry of the maps at its own index,
parameters first, a name and its value at the same index. N is taken below 2^31,
the range of the `int size` the code computes. -/
theorem dispatch_arrays_marshalled (op : Op) (x : Host) (source : Option String) (s : State)
    (hsrc : op = Op.validate ∨ source.isSome = true)
    (hres : (x.GetMethodID op.entry.1 op.entry.2 s.env).1 = true)
    (hN : (op.run x source s).parameters.length + (op.run x source s).properties.length
            < 2 ^ 31) :
    (op.run x source s).parameters = s.parameters ∧
    (op.run x source s).properties =
      (if op = Op.registerSchemaFromFile then s.properties
       else (setProperty "resources" s.proc.resourcesDirectory s).properties) ∧
    ∃ call : HostCall,
      (op.run x source s).env.calls = call :: s.env.calls ∧
      call.method = op.entry.1 ∧ call.signature = op.entry.2 ∧
      Marshalled (op.run x source s).parameters (op.run x source s).properties call := by
  cases op
  · -- registerSchemaFromFile
    rcases hsrc with h | h
    · cases h
    obtain ⟨src, rfl⟩ := Option.isSome_iff_exists.mp h
    simp only [Op.entry] at hres
    simp only [Op.run, registerSchemaFromFile, lookupMethod, invoke, hres, Op.entry,
      faultCheck_parameters, faultCheck_properties, faultCheck_calls] at hN ⊢
    refine ⟨rfl, by simp, _, rfl, rfl, rfl, ?_⟩
    exact marshal_Marshalled _ _ _ (by simpa using hN) rfl rfl
  · -- registerSchemaFromString
    rcases hsrc with h | h
    · cases h
    obtain ⟨src, rfl⟩ := Option.isSome_iff_exists.mp h
    simp only [Op.entry] at hres
    have hres' : (x.GetMethodID registerSchemaStringEntry.1 registerSchemaStringEntry.2
        (setProperty "resources" s.proc.resourcesDirectory s).env).1 = true := hres
    simp only [Op.run, registerSchemaFromString, lookupMethod, invoke, hres', Op.entry,
      faultCheck_parameters, faultCheck_properties, faultCheck_calls] at hN ⊢
    refine ⟨rfl, by simp, _, rfl, rfl, rfl, ?_⟩
    exact marshal_Marshalled _ _ _ (by simpa using hN) rfl rfl
  · -- validate
    simp only [Op.entry] at hres
    have hres' : (x.GetMethodID validateEntry.1 validateEntry.2
        (setProperty "resources" s.proc.resourcesDirectory s).env).1 = true := hres
    simp only [Op.run, validate, lookupMethod, invoke, hres', Op.entry, Bool.true_eq_false, if_false,
      faultCheck_parameters, faultCheck_properties, faultCheck_calls] at hN ⊢
    refine ⟨rfl, by simp, _, rfl, rfl, rfl, ?_⟩
    exact marshal_Marshalled _ _ _ (by simpa using hN) rfl rfl
  · -- validateToNode
    rcases hsrc with h | h
    · cases h
    obtain ⟨src, rfl⟩ := Option.isSome_iff_exists.mp h
    simp only [Op.entry] at hres
    have hres' : (x.GetMethodID validateToNodeEntry.1 validateToNodeEntry.2
        (setProperty "resources" s.proc.resourcesDirectory s).env).1 = true := hres
    simp only [Op.run, validateToNode, lookupMethod, invoke, hres', Op.entry, Bool.true_eq_false,
      if_false] at hN ⊢
    split <;> rename_i heq <;> simp only [heq] at hN <;>
    · refine ⟨rfl, by simp, _, rfl, rfl, rfl, ?_⟩
      exact marshal_Marshalled _ _ _ (by simpa using hN) rfl rfl

/-- The marshalling property at `validateToNode("doc.xml")` with two parameters and one
property set beforehand. -/
theorem dispatch_arrays_marshalled_witness :
    (Op.validateToNode = Op.validate ∨ (some "doc.xml" : Option String).isSome = true) ∧
    (sampleHost.GetMethodID Op.validateToNode.entry.1 Op.validateToNode.entry.2
        scenarioState.env).1 = true ∧
    (Op.validateToNode.run sampleHost (some "doc.xml") scenarioState).parameters.length
      + (Op.validateToNode.run sampleHost (some "doc.xml") scenarioState).properties.length
      < 2 ^ 31 ∧
    ((Op.validateToNode.run sampleHost (some "doc.xml") scenarioState).parameters
        = scenarioState.parameters ∧
     (Op.validateToNode.run sampleHost (some "doc.xml") scenarioState).properties =
      (if Op.validateToNode = Op.registerSchemaFromFile then scenarioState.properties
       else (setProperty "resources" scenarioState.proc.resourcesDirectory
              scenarioState).properties) ∧
     ∃ call : HostCall,
      (Op.validateToNode.run sampleHost (some "doc.xml") scenarioState).env.calls
        = call :: scenarioState.env.calls ∧
      call.method = Op.validateToNode.entry.1 ∧ call.signature = Op.validateToNode.entry.2 ∧
      Marshalled (Op.validateToNode.run sampleHost (some "doc.xml") scenarioState).parameters
        (Op.validateToNode.run sampleHost (some "doc.xml") scenarioState).properties call) :=
  ⟨Or.inr rfl, by decide, by decide,
   dispatch_arrays_marshalled Op.validateToNode sampleHost (some "doc.xml") scenarioState
     (Or.inr rfl) (by decide) (by decide)⟩

/-- The scenario evaluated: the call `validateToNode` makes for two parameters and one
property carries four names and four values, the forced "resources" property being
the fourth entry, parameters first and each map in key order. -/
theorem scenario_arrays :
    (Op.validateToNode.run sampleHost (some "doc.xml") scenarioState).env.calls =
      [{ method := "validateToNode",
         signature := validateToNodeEntry.2,
         literals := [some (JObject.jstring "/work"), some (JObject.jstring "doc.xml")],
         stringArray := some [some (JObject.jstring "param:a"), some (JObject.jstring "param:b"),
                              some (JObject.jstring "indent"), some (JObject.jstring "resources")],
         objectArray := some [some (JObject.underlying 1), some (JObject.underlying 2),
                              some (JObject.jstring "yes"),
                              some (JObject.jstring "/opt/saxon/saxon-data")] }] := by
  decide

/-- With both maps empty `registerSchemaFromFile` passes two null arrays. -/
theorem empty_maps_null_arrays :
    (registerSchemaFromFile sampleHost (some "schema.xsd") freshState).env.calls =
      [{ method := "registerSchema",
         signature := registerSchemaEntry.2,
         literals := [some (JObject.jstring "/work"), some (JObject.jstring "schema.xsd")],
         stringArray := none,
         objectArray := none }] := by
  decide

/-! ## The fault check after a host call -/

theorem faultCheck_pending (x : Host) (s : State) (hp : s.env.pending.isSome = true) :
    (faultCheck x s).proc.exception = x.checkForExceptionCPP s.env ∧
    (faultCheck x s).env.pending = none := by
  have hocc : exceptionOccurred s = true := by
    simp [exceptionOccurred, procExceptionOccurred, JEnv.ExceptionCheck, hp]
  unfold faultCheck
  rw [if_pos hocc]
  exact ⟨rfl, rfl⟩

theorem faultCheck_not_pending (x : Host) (s : State) (hp : s.env.pending = none)
    (hcap : x.checkForExceptionCPP s.env = none) :
    (faultCheck x s).proc.exception = none ∧ (faultCheck x s).env.pending = none := by
  unfold faultCheck
  split_ifs with hocc
  · exact ⟨hcap, rfl⟩
  · have h : s.proc.exception = none := by
      cases he : s.proc.exception with
      | none => rfl
      | some e => simp [exceptionOccurred, he] at hocc
    exact ⟨h, hp⟩

theorem clean_of_no_snapshot (s : State) (he : s.proc.exception = none)
    (hp : s.env.pending = none) : exceptionOccurred s = false ∧ exceptionCount s = 0 := by
  simp [exceptionOccurred, procExceptionOccurred, JEnv.ExceptionCheck, exceptionCount, he, hp]

theorem faulted_of_snapshot (s : State) (e : SaxonApiException) (he : s.proc.exception = some e)
    (hlen : 1 ≤ e.length) : exceptionOccurred s = true ∧ 1 ≤ exceptionCount s := by
  simp only [exceptionOccurred, exceptionCount, he, SaxonApiException.count, Option.isSome_some,
    Bool.or_true, true_and]
  omega

theorem faultCheck_faulted (x : Host) (s : State) (hp : s.env.pending.isSome = true)
    (hcap : ∀ env : JEnv, env.pending.isSome = true →
      ∃ e, x.checkForExceptionCPP env = some e ∧ 1 ≤ e.length) :
    exceptionOccurred (faultCheck x s) = true ∧ 1 ≤ exceptionCount (faultCheck x s) ∧
    (faultCheck x s).env.pending = none := by
  obtain ⟨hex, hpend⟩ := faultCheck_pending x s hp
  obtain ⟨e, he, hlen⟩ := hcap s.env hp
  rw [he] at hex
  exact ⟨(faulted_of_snapshot _ e hex hlen).1, (faulted_of_snapshot _ e hex hlen).2, hpend⟩

theorem faultCheck_clean (x : Host) (s : State) (hp : s.env.pending = none)
    (hcap : ∀ env : JEnv, env.pending = none → x.checkForExceptionCPP env = none) :
    exceptionOccurred (faultCheck x s) = false ∧ exceptionCount (faultCheck x s) = 0 := by
  obtain ⟨hex, hpend⟩ := faultCheck_not_pending x s hp (hcap s.env hp)
  exact clean_of_no_snapshot _ hex hpend

/-- The three operations that run the fault check capture a host fault: when the call
the operation made left an exception pending, and a capture from a faulted
environment has at least one entry, the operation returns with a snapshot held
(`exceptionOccurred()` true, `exceptionCount()` at least 1) and nothing pending. -/
theorem fault_captured_where_checked (op : Op) (x : Host) (source : Option String) (s : State)
    (hop : op ≠ Op.validateToNode)
    (hsrc : op = Op.validate ∨ source.isSome = true)
    (hres : (x.GetMethodID op.entry.1 op.entry.2 s.env).1 = true)
    (hfault : ∀ call : HostCall, (op.run x source s).env.calls = call :: s.env.calls →
      ((x.CallMethod call
          { pending := (x.GetMethodID op.entry.1 op.entry.2 s.env).2,
            calls := s.env.calls }).2).isSome = true)
    (hcap : ∀ env : JEnv, env.pending.isSome = true →
      ∃ e, x.checkForExceptionCPP env = some e ∧ 1 ≤ e.length) :
    exceptionOccurred (op.run x source s) = true ∧
    1 ≤ exceptionCount (op.run x source s) ∧
    (op.run x source s).env.pending = none := by
  cases op
  · rcases hsrc with h | h
    · cases h
    obtain ⟨src, rfl⟩ := Option.isSome_iff_exists.mp h
    simp only [Op.entry] at hres hfault
    simp only [Op.run, registerSchemaFromFile, lookupMethod, invoke, hres, Bool.true_eq_false,
      if_false, faultCheck_calls] at hfault ⊢
    exact faultCheck_faulted x _ (hfault _ rfl) hcap
  · rcases hsrc with h | h
    · cases h
    obtain ⟨src, rfl⟩ := Option.isSome_iff_exists.mp h
    simp only [Op.entry] at hres hfault
    have hres' : (x.GetMethodID registerSchemaStringEntry.1 registerSchemaStringEntry.2
        (setProperty "resources" s.proc.resourcesDirectory s).env).1 = true := hres
    simp only [Op.run, registerSchemaFromString, lookupMethod, invoke, hres', Bool.true_eq_false,
      if_false, faultCheck_calls] at hfault ⊢
    exact faultCheck_faulted x _ (hfault _ rfl) hcap
  · simp only [Op.entry] at hres hfault
    have hres' : (x.GetMethodID validateEntry.1 validateEntry.2
        (setProperty "resources" s.proc.resourcesDirectory s).env).1 = true := hres
    simp only [Op.run, validate, lookupMethod, invoke, hres', Bool.true_eq_false,
      if_false, faultCheck_calls] at hfault ⊢
    exact faultCheck_faulted x _ (hfault _ rfl) hcap
  · exact absurd rfl hop

/-- The three operations that run the fault check end clean after a call without a
fault, whatever snapshot was held before: when the call the operation made left
nothing pending, and a capture from a non-faulted environment yields no
snapshot, `exceptionOccurred()` is false and `exceptionCount()` is 0 on return. -/
theorem clean_after_success_where_checked (op : Op) (x : Host) (source : Option String)
    (s : State)
    (hop : op ≠ Op.validateToNode)
    (hsrc : op = Op.validate ∨ source.isSome = true)
    (hres : (x.GetMethodID op.entry.1 op.entry.2 s.env).1 = true)
    (hok : ∀ call : HostCall, (op.run x source s).env.calls = call :: s.env.calls →
      (x.CallMethod call
          { pending := (x.GetMethodID op.entry.1 op.entry.2 s.env).2,
            calls := s.env.calls }).2 = none)
    (hcap : ∀ env : JEnv, env.pending = none → x.checkForExceptionCPP env = none) :
    exceptionOccurred (op.run x source s) = false ∧
    exceptionCount (op.run x source s) = 0 := by
  cases op
  · rcases hsrc with h | h
    · cases h
    obtain ⟨src, rfl⟩ := Option.isSome_iff_exists.mp h
    simp only [Op.entry] at hres hok
    simp only [Op.run, registerSchemaFromFile, lookupMethod, invoke, hres, Bool.true_eq_false,
      if_false, faultCheck_calls] at hok ⊢
    exact faultCheck_clean x _ (hok _ rfl) hcap
  · rcases hsrc with h | h
    · cases h
    obtain ⟨src, rfl⟩ := Option.isSome_iff_exists.mp h
    simp only [Op.entry] at hres hok
    have hres' : (x.GetMethodID registerSchemaStringEntry.1 registerSchemaStringEntry.2
        (setProperty "resources" s.proc.resourcesDirectory s).env).1 = true := hres
    simp only [Op.run, registerSchemaFromString, lookupMethod, invoke, hres', Bool.true_eq_false,
      if_false, faultCheck_calls] at hok ⊢
    exact faultCheck_clean x _ (hok _ rfl) hcap
  · simp only [Op.entry] at hres hok
    have hres' : (x.GetMethodID validateEntry.1 validateEntry.2
        (setProperty "resources" s.proc.resourcesDirectory s).env).1 = true := hres
    simp only [Op.run, validate, lookupMethod, invoke, hres', Bool.true_eq_false,
      if_false, faultCheck_calls] at hok ⊢
    exact faultCheck_clean x _ (hok _ rfl) hcap
  · exact absurd rfl hop

theorem sampleCapture_of_pending (env : JEnv) (h : env.pending.isSome = true) :
    ∃ e, sampleHost.checkForExceptionCPP env = some e ∧ 1 ≤ e.length := by
  cases hp : env.pending with
  | none => rw [hp] at h; cases h
  | some t =>
      exact ⟨[("XSD99999", "document is not valid")], by simp [sampleHost, sampleCapture, hp],
        by simp⟩

theorem sampleCapture_of_not_pending (env : JEnv) (h : env.pending = none) :
    sampleHost.checkForExceptionCPP env = none := by
  simp [sampleHost, sampleCapture, h]

/-- C1, at the input where the code departs from it: `validateToNode("bad.xml")` on a
fresh validator, with an entry point that resolves, a host call that returns
null with an exception pending, and a capture routine that would yield one
entry. On return the pending exception is cleared but no snapshot was taken:
`exceptionOccurred()` is false and `exceptionCount()` is 0. The same source
through `validate` is captured. -/
theorem validateToNode_fault_not_captured :
    (sampleHost.GetMethodID validateToNodeEntry.1 validateToNodeEntry.2 freshState.env).1 = true ∧
    (∀ env : JEnv, env.pending.isSome = true →
      ∃ e, sampleHost.checkForExceptionCPP env = some e ∧ 1 ≤ e.length) ∧
    (validateToNode sampleHost (some "bad.xml") freshState).2.env.calls.length = 1 ∧
    (∀ call ∈ (validateToNode sampleHost (some "bad.xml") freshState).2.env.calls,
      sampleHost.CallMethod call freshState.env = (none, some { id := 1 })) ∧
    (validateToNode sampleHost (some "bad.xml") freshState).2.proc.exception = none ∧
    (validateToNode sampleHost (some "bad.xml") freshState).2.env.pending = none ∧
    exceptionOccurred (validateToNode sampleHost (some "bad.xml") freshState).2 = false ∧
    exceptionCount (validateToNode sampleHost (some "bad.xml") freshState).2 = 0 ∧
    exceptionOccurred (validate sampleHost (some "bad.xml") freshState) = true ∧
    exceptionCount (validate sampleHost (some "bad.xml") freshState) = 1 := by
  refine ⟨by decide, sampleCapture_of_pending, by decide, by decide,
    by decide, by decide, by decide, by decide, by decide, by decide⟩

/-- C2, at the input where the code departs from it: a `validate("bad.xml")` that
faults leaves a snapshot; a following `validateToNode("good.xml")` whose host
call returns a document and raises nothing returns with that snapshot still
held: `exceptionOccurred()` is true and `exceptionCount()` is 1. The same second
call through `validate` ends clean. -/
theorem validateToNode_success_keeps_old_snapshot :
    exceptionOccurred (validate sampleHost (some "bad.xml") freshState) = true ∧
    (sampleHost.GetMethodID validateToNodeEntry.1 validateToNodeEntry.2
        (validate sampleHost (some "bad.xml") freshState).env).1 = true ∧
    (∀ env : JEnv, env.pending = none → sampleHost.checkForExceptionCPP env = none) ∧
    (validateToNode sampleHost (some "good.xml")
        (validate sampleHost (some "bad.xml") freshState)).2.env.calls.length
      = (validate sampleHost (some "bad.xml") freshState).env.calls.length + 1 ∧
    (∀ call ∈ (validateToNode sampleHost (some "good.xml")
        (validate sampleHost (some "bad.xml") freshState)).2.env.calls.take 1,
      sampleHost.CallMethod call (validate sampleHost (some "bad.xml") freshState).env
        = (some (JObject.handle 7), none)) ∧
    (validateToNode sampleHost (some "good.xml")
        (validate sampleHost (some "bad.xml") freshState)).1
      = some { value := JObject.handle 7 } ∧
    exceptionOccurred (validateToNode sampleHost (some "good.xml")
        (validate sampleHost (some "bad.xml") freshState)).2 = true ∧
    exceptionCount (validateToNode sampleHost (some "good.xml")
        (validate sampleHost (some "bad.xml") freshState)).2 = 1 ∧
    exceptionOccurred (validate sampleHost (some "good.xml")
        (validate sampleHost (some "bad.xml") freshState)) = false ∧
    exceptionCount (validate sampleHost (some "good.xml")
        (validate sampleHost (some "bad.xml") freshState)) = 0 := by
  refine ⟨by decide, by decide, sampleCapture_of_not_pending, by decide, by decide,
    by decide, by decide, by decide, by decide, by decide⟩

/-! ## `setProperty` and the forced "resources" property -/

/-- On a name that is not bound yet, `setProperty` creates the binding (the empty string
for a null value) and leaves every other binding as it was. -/
theorem setProperty_creates (s : State) (name : String) (value : Option String)
    (hfree : mapFind name s.properties = none) :
    mapFind name (setProperty name value s).properties = some (value.getD "") ∧
    ∀ k, k ≠ name → mapFind k (setProperty name value s).properties = mapFind k s.properties := by
  constructor
  · cases value <;> exact mapFind_mapInsert_fresh _ _ _ hfree
  · intro k hk
    exact mapFind_mapInsert_other _ _ _ _ hk

/-- On a name that is already bound, `setProperty` leaves the property map as it was. -/
theorem setProperty_bound_unchanged (s : State) (name old : String) (value : Option String)
    (hwf : WF s.properties) (hbound : mapFind name s.properties = some old) :
    (setProperty name value s).properties = s.properties :=
  mapInsert_bound _ _ _ _ hwf hbound

/-- C4, at the input where the code departs from it: with "resources" already bound to
"/mine", `setProperty("resources", "/other")` leaves it bound to "/mine" (the
`std::map::insert` it uses does not replace an entry), and `validate` then
dispatches with "/mine" although the processor's resource directory is
"/opt/saxon/saxon-data". Binding a fresh name does work, and `setParameter` on
the sibling store does replace a bound value. -/
theorem setProperty_does_not_update :
    mapFind "resources" (setProperty "resources" (some "/mine") freshState).properties
      = some "/mine" ∧
    mapFind "resources"
        (setProperty "resources" (some "/other")
          (setProperty "resources" (some "/mine") freshState)).properties
      = some "/mine" ∧
    freshState.proc.resourcesDirectory = some "/opt/saxon/saxon-data" ∧
    (validate sampleHost (some "good.xml")
        (setProperty "resources" (some "/mine") freshState)).env.calls.map
          (fun call => (call.stringArray, call.objectArray))
      = [(some [some (JObject.jstring "resources")], some [some (JObject.jstring "/mine")])] ∧
    mapFind "param:a"
        (setParameter "a" (some 2) (setParameter "a" (some 1) freshState)).parameters
      = some 2 := by
  decide

/-! ## `clearParameters` -/

/-- With `delVal` false the function does nothing at all. -/
theorem clearParameters_false_eq (s : State) : clearParameters false s = s := rfl

/-- C5, at the input where the code departs from it: after `setParameter("a", v)` on a
fresh validator, `clearParameters(false)` leaves the entry in the store (the
`parameters.clear()` sits inside the `if(delVal)` block); the reference count
is untouched and nothing is deleted, as the claim says. -/
theorem clearParameters_false_keeps_store :
    (setParameter "a" (some 5) freshState).parameters = [("param:a", 5)] ∧
    (clearParameters false (setParameter "a" (some 5) freshState)).parameters
      = [("param:a", 5)] ∧
    (clearParameters false (setParameter "a" (some 5) freshState)).heap.refCount 5
      = (setParameter "a" (some 5) freshState).heap.refCount 5 ∧
    (clearParameters false (setParameter "a" (some 5) freshState)).heap.deleted = [] := by
  decide

/-! ## Null and empty sources -/

/-- A null source makes `registerSchemaFromFile` return before any lookup or call, with
both stores, the snapshot, the environment and the heap as they were. -/
theorem registerSchemaFromFile_null (x : Host) (s : State) :
    (registerSchemaFromFile x none s).env = s.env ∧
    (registerSchemaFromFile x none s).parameters = s.parameters ∧
    (registerSchemaFromFile x none s).properties = s.properties ∧
    (registerSchemaFromFile x none s).proc = s.proc ∧
    (registerSchemaFromFile x none s).heap = s.heap :=
  ⟨rfl, rfl, rfl, rfl, rfl⟩

/-- A null source makes `validateToNode` return null before any lookup or call, with
both stores, the snapshot, the environment and the heap as they were. -/
theorem validateToNode_null (x : Host) (s : State) :
    (validateToNode x none s).1 = none ∧
    (validateToNode x none s).2.env = s.env ∧
    (validateToNode x none s).2.parameters = s.parameters ∧
    (validateToNode x none s).2.properties = s.properties ∧
    (validateToNode x none s).2.proc = s.proc ∧
    (validateToNode x none s).2.heap = s.heap :=
  ⟨rfl, rfl, rfl, rfl, rfl, rfl⟩

/-- A null source makes `registerSchemaFromString` return before any lookup or call;
the parameter store, the snapshot, the environment and the heap are as they
were, and the property store is the one `setProperty` of "resources" produced. -/
theorem registerSchemaFromString_null (x : Host) (s : State) :
    (registerSchemaFromString x none s).env = s.env ∧
    (registerSchemaFromString x none s).parameters = s.parameters ∧
    (registerSchemaFromString x none s).properties
      = mapInsert "resources" (s.proc.resourcesDirectory.getD "") s.properties ∧
    (registerSchemaFromString x none s).proc = s.proc ∧
    (registerSchemaFromString x none s).heap = s.heap := by
  refine ⟨rfl, rfl, ?_, rfl, rfl⟩
  cases h : s.proc.resourcesDirectory <;> simp [registerSchemaFromString, setProperty, h]

/-- C7, at the input where the code departs from it: with the empty string as source
(not null) and an entry point that resolves, `registerSchemaFromFile`,
`registerSchemaFromString` and `validateToNode` each invoke the host entry
point, handing it the empty string; only the null source returns without a
call. The diagnostics the code prints for the null case read "cannot be empty
or NULL". -/
theorem empty_source_reaches_host :
    freshState.env.calls = [] ∧
    (registerSchemaFromFile sampleHost (some "") freshState).env.calls.map
        (fun call => (call.method, call.literals))
      = [("registerSchema", [some (JObject.jstring "/work"), some (JObject.jstring "")])] ∧
    (registerSchemaFromString sampleHost (some "") freshState).env.calls.map
        (fun call => (call.method, call.literals))
      = [("registerSchemaString",
          [some (JObject.jstring "/work"), some (JObject.jstring ""), none])] ∧
    (validateToNode sampleHost (some "") freshState).2.env.calls.map
        (fun call => (call.method, call.literals))
      = [("validateToNode", [some (JObject.jstring "/work"), some (JObject.jstring "")])] ∧
    (registerSchemaFromFile sampleHost none freshState).env.calls = [] ∧
    (registerSchemaFromString sampleHost none freshState).env.calls = [] ∧
    (validateToNode sampleHost none freshState).2.env.calls = [] ∧
    (registerSchemaFromFile sampleHost none freshState).cerr
      = ["Error:: sourceFile string cannot be empty or NULL"] := by
  decide

/-- C8, at the input where the code departs from it: `registerSchemaFromString(NULL)` on
a fresh validator returns early, yet the property store, empty before the call,
holds "resources" afterwards (`setProperty` runs before the null check);
the parameter store and the snapshot are as before. `validateToNode(NULL)`, which
checks first, and `registerSchemaFromFile(NULL)` leave the property store empty. -/
theorem registerSchemaFromString_null_sets_resources :
    freshState.properties = [] ∧
    (registerSchemaFromString sampleHost none freshState).properties
      = [("resources", "/opt/saxon/saxon-data")] ∧
    (registerSchemaFromString sampleHost none freshState).parameters = freshState.parameters ∧
    (registerSchemaFromString sampleHost none freshState).proc.exception
      = freshState.proc.exception ∧
    (registerSchemaFromString sampleHost none freshState).env.calls = [] ∧
    (validateToNode sampleHost none freshState).2.properties = [] ∧
    (registerSchemaFromFile sampleHost none freshState).properties = [] := by
  decide

/-! ## `clearParameters(true)` -/

theorem clearLoop_refCount_of_not_mem : ∀ (m : StdMap Ptr) (h : Heap) (p : Ptr),
    p ∉ m.map Prod.snd → (clearLoop m h).refCount p = h.refCount p := by
  intro m
  induction m with
  | nil => intro h p _; rfl
  | cons e rest ih =>
      intro h p hp
      obtain ⟨k, v⟩ := e
      simp only [List.map_cons, List.mem_cons, not_or] at hp
      simp only [clearLoop]
      rw [ih _ p hp.2]
      split_ifs <;> simp [deleteValue, decrementRefCount, hp.1]

theorem clearLoop_refCount_of_mem : ∀ (m : StdMap Ptr) (h : Heap) (p : Ptr),
    (m.map Prod.snd).Nodup → p ∈ m.map Prod.snd →
    (clearLoop m h).refCount p = h.refCount p - 1 := by
  intro m
  induction m with
  | nil => intro h p _ hp; cases hp
  | cons e rest ih =>
      intro h p hnd hp
      obtain ⟨k, v⟩ := e
      simp only [List.map_cons, List.nodup_cons] at hnd
      simp only [List.map_cons, List.mem_cons] at hp
      simp only [clearLoop]
      rcases hp with hpv | hrest
      · subst hpv
        rw [clearLoop_refCount_of_not_mem _ _ p hnd.1]
        split_ifs <;> simp [deleteValue, decrementRefCount]
      · have hne : p ≠ v := fun h' => hnd.1 (h' ▸ hrest)
        rw [ih _ p hnd.2 hrest]
        split_ifs <;> simp [deleteValue, decrementRefCount, hne]

/-- The objects the loop deletes, in general: those whose count is below 1 after the
decrement, in iteration order (the record lists the most recent first). -/
theorem clearLoop_deleted : ∀ (m : StdMap Ptr) (h : Heap),
    (m.map Prod.snd).Nodup →
    (clearLoop m h).deleted
      = ((m.map Prod.snd).filter (fun v => decide (h.refCount v - 1 < 1))).reverse
          ++ h.deleted := by
  intro m
  induction m with
  | nil => intro h _; rfl
  | cons e rest ih =>
      intro h hnd
      obtain ⟨k, v⟩ := e
      simp only [List.map_cons, List.nodup_cons] at hnd
      have hcongr : ∀ (h2 : Heap), (∀ p, p ≠ v → h2.refCount p = h.refCount p) →
          (rest.map Prod.snd).filter (fun u => decide (h2.refCount u - 1 < 1))
            = (rest.map Prod.snd).filter (fun u => decide (h.refCount u - 1 < 1)) := by
        intro h2 hh
        apply List.filter_congr
        intro u hu
        have hne : u ≠ v := fun h' => hnd.1 (h' ▸ hu)
        rw [hh u hne]
      simp only [clearLoop, List.map_cons]
      rw [ih _ hnd.2]
      by_cases hlt : h.refCount v - 1 < 1
      · have h1 : getRefCount v (decrementRefCount v h) < 1 := by
          simpa [getRefCount, decrementRefCount] using hlt
        rw [if_pos h1, List.filter_cons_of_pos (by simpa using hlt)]
        rw [hcongr _ (by intro p hp; simp [deleteValue, decrementRefCount, hp])]
        simp [deleteValue, decrementRefCount]
      · have h1 : ¬ getRefCount v (decrementRefCount v h) < 1 := by
          simpa [getRefCount, decrementRefCount] using hlt
        rw [if_neg h1, List.filter_cons_of_neg (by simpa using hlt)]
        rw [hcongr _ (by intro p hp; simp [decrementRefCount, hp])]
        simp [decrementRefCount]

/-- C6: for a parameter store whose entries hold distinct values, each counted at least
once (the store's own reference, taken by `setParameter`), `clearParameters(true)`
leaves the store empty, lowers the count of every stored value by exactly one,
leaves every other count alone, and deletes exactly the stored values whose
count has thereby reached zero (listed most recent first), so a value stored with
count 1 is deleted and a value stored with count 2 ends at 1 and is not. -/
theorem clearParameters_true_releases (s : State)
    (hdistinct : (s.parameters.map Prod.snd).Nodup)
    (hcounted : ∀ v ∈ s.parameters.map Prod.snd, 1 ≤ s.heap.refCount v) :
    (clearParameters true s).parameters = [] ∧
    (∀ v ∈ s.parameters.map Prod.snd,
      (clearParameters true s).heap.refCount v = s.heap.refCount v - 1) ∧
    (∀ v, v ∉ s.parameters.map Prod.snd →
      (clearParameters true s).heap.refCount v = s.heap.refCount v) ∧
    (clearParameters true s).heap.deleted
      = ((s.parameters.map Prod.snd).filter
            (fun v => decide ((clearParameters true s).heap.refCount v = 0))).reverse
          ++ s.heap.deleted ∧
    (∀ v ∈ s.parameters.map Prod.snd, s.heap.refCount v = 1 →
      v ∈ (clearParameters true s).heap.deleted) ∧
    (∀ v ∈ s.parameters.map Prod.snd, s.heap.refCount v = 2 →
      (clearParameters true s).heap.refCount v = 1 ∧
      (v ∈ (clearParameters true s).heap.deleted → v ∈ s.heap.deleted)) := by
  have hdel : (clearParameters true s).heap.deleted
      = ((s.parameters.map Prod.snd).filter
            (fun v => decide ((clearParameters true s).heap.refCount v = 0))).reverse
          ++ s.heap.deleted := by
    show (clearLoop s.parameters s.heap).deleted = _
    rw [clearLoop_deleted _ _ hdistinct]
    congr 2
    apply List.filter_congr
    intro v hv
    have h1 := hcounted v hv
    have h2 : (clearParameters true s).heap.refCount v = s.heap.refCount v - 1 :=
      clearLoop_refCount_of_mem _ _ v hdistinct hv
    rw [h2]
    simp only [decide_eq_decide]
    omega
  have hcnt : ∀ v ∈ s.parameters.map Prod.snd,
      (clearParameters true s).heap.refCount v = s.heap.refCount v - 1 :=
    fun v hv => clearLoop_refCount_of_mem _ _ v hdistinct hv
  refine ⟨rfl, hcnt, fun v hv => clearLoop_refCount_of_not_mem _ _ v hv, hdel, ?_, ?_⟩
  · intro v hv h1
    rw [hdel]
    apply List.mem_append_left
    rw [List.mem_reverse, List.mem_filter]
    refine ⟨hv, ?_⟩
    rw [hcnt v hv, h1]
    decide
  · intro v hv h2
    refine ⟨by rw [hcnt v hv, h2]; rfl, ?_⟩
    intro hmem
    rw [hdel] at hmem
    rcases List.mem_append.mp hmem with h | h
    · rw [List.mem_reverse, List.mem_filter, hcnt v hv, h2] at h
      exact absurd h.2 (by decide)
    · exact h

/-- The release property at a store holding one value with count 1 and one with
count 2. -/
theorem clearParameters_true_releases_witness :
    (sharedState.parameters.map Prod.snd).Nodup ∧
    (∀ v ∈ sharedState.parameters.map Prod.snd, 1 ≤ sharedState.heap.refCount v) ∧
    ((clearParameters true sharedState).parameters = [] ∧
     (∀ v ∈ sharedState.parameters.map Prod.snd,
      (clearParameters true sharedState).heap.refCount v = sharedState.heap.refCount v - 1) ∧
     (∀ v, v ∉ sharedState.parameters.map Prod.snd →
      (clearParameters true sharedState).heap.refCount v = sharedState.heap.refCount v) ∧
     (clearParameters true sharedState).heap.deleted
      = ((sharedState.parameters.map Prod.snd).filter
            (fun v => decide ((clearParameters true sharedState).heap.refCount v = 0))).reverse
          ++ sharedState.heap.deleted ∧
     (∀ v ∈ sharedState.parameters.map Prod.snd, sharedState.heap.refCount v = 1 →
      v ∈ (clearParameters true sharedState).heap.deleted) ∧
     (∀ v ∈ sharedState.parameters.map Prod.snd, sharedState.heap.refCount v = 2 →
      (clearParameters true sharedState).heap.refCount v = 1 ∧
      (v ∈ (clearParameters true sharedState).heap.deleted → v ∈ sharedState.heap.deleted))) :=
  ⟨by decide, by decide,
   clearParameters_true_releases sharedState (by decide) (by decide)⟩

/-- The two-parameter store evaluated: counts 1 and 2 before, the store empty after, the
first value at count 0 and deleted, the second at count 1 and kept. -/
theorem sharedState_cleared :
    sharedState.parameters = [("param:a", 10), ("param:b", 11)] ∧
    sharedState.heap.refCount 10 = 1 ∧ sharedState.heap.refCount 11 = 2 ∧
    (clearParameters true sharedState).parameters = [] ∧
    (clearParameters true sharedState).heap.refCount 10 = 0 ∧
    (clearParameters true sharedState).heap.refCount 11 = 1 ∧
    (clearParameters true sharedState).heap.deleted = [10] := by
  decide

/-! ## `setParameter` and `removeParameter` -/

theorem removeParameter_fst (name : String) (s : State) :
    (removeParameter name s).1 = true
      ↔ (mapFind ("param:" ++ name) s.parameters).isSome = true := by
  simp only [removeParameter, decide_eq_true_eq]
  exact mapErase_count _ _

theorem setParameter_WF (name : String) (value : Option Ptr) (s : State)
    (hwf : WF s.parameters) : WF (setParameter name value s).parameters := by
  cases value with
  | none => exact hwf
  | some v => exact mapAssign_WF _ _ _ hwf

theorem removeParameter_WF (name : String) (s : State) (hwf : WF s.parameters) :
    WF (removeParameter name s).2.parameters :=
  mapErase_WF _ _ hwf

/-- C9: for a parameter store (keys strictly increasing, as in any `std::map`), a name
and a non-null value: after `setParameter(name, value)` the store binds
"param:" + name to value and value's count is one higher; `removeParameter(name)`
then returns true and a second `removeParameter(name)` returns false. In general
`removeParameter(name)` returns true exactly when "param:" + name was bound,
leaves the store without that entry and with every other entry in place, and
leaves the heap (every count, every object) alone; `setParameter` with a null
value leaves the whole state as it was. -/
theorem setParameter_removeParameter (s : State) (name : String) (value : Ptr)
    (hwf : WF s.parameters) :
    mapFind ("param:" ++ name) (setParameter name (some value) s).parameters = some value ∧
    (setParameter name (some value) s).heap.refCount value = s.heap.refCount value + 1 ∧
    (removeParameter name (setParameter name (some value) s)).1 = true ∧
    (removeParameter name
        (removeParameter name (setParameter name (some value) s)).2).1 = false ∧
    ((removeParameter name s).1 = true
      ↔ (mapFind ("param:" ++ name) s.parameters).isSome = true) ∧
    (removeParameter name s).2.parameters
      = s.parameters.filter (fun e => decide (e.1 ≠ "param:" ++ name)) ∧
    mapFind ("param:" ++ name) (removeParameter name s).2.parameters = none ∧
    (∀ k, k ≠ "param:" ++ name →
      mapFind k (removeParameter name s).2.parameters = mapFind k s.parameters) ∧
    (removeParameter name s).2.heap = s.heap ∧
    (removeParameter name s).2.properties = s.properties ∧
    setParameter name none s = s := by
  have hfind : mapFind ("param:" ++ name) (setParameter name (some value) s).parameters
      = some value := mapFind_mapAssign_self _ _ _
  have hwf1 : WF (setParameter name (some value) s).parameters :=
    setParameter_WF name (some value) s hwf
  refine ⟨hfind, ?_, ?_, ?_, removeParameter_fst name s, mapErase_eq_filter _ _ hwf,
    mapFind_mapErase_self _ _ hwf, fun k hk => mapFind_mapErase_other _ _ _ hk, rfl, rfl, rfl⟩
  · simp [setParameter, incrementRefCount]
  · rw [removeParameter_fst, hfind]
    rfl
  · have hnone : mapFind ("param:" ++ name)
        (removeParameter name (setParameter name (some value) s)).2.parameters = none :=
      mapFind_mapErase_self _ _ hwf1
    cases hb : (removeParameter name
        (removeParameter name (setParameter name (some value) s)).2).1 with
    | false => rfl
    | true =>
        rw [removeParameter_fst, hnone] at hb
        cases hb

/-- The set-then-remove property at the two-parameter scenario, for a third name. -/
theorem setParameter_removeParameter_witness :
    WF scenarioState.parameters ∧
    (mapFind ("param:" ++ "c") (setParameter "c" (some 3) scenarioState).parameters = some 3 ∧
    (setParameter "c" (some 3) scenarioState).heap.refCount 3
      = scenarioState.heap.refCount 3 + 1 ∧
    (removeParameter "c" (setParameter "c" (some 3) scenarioState)).1 = true ∧
    (removeParameter "c"
        (removeParameter "c" (setParameter "c" (some 3) scenarioState)).2).1 = false ∧
    ((removeParameter "c" scenarioState).1 = true
      ↔ (mapFind ("param:" ++ "c") scenarioState.parameters).isSome = true) ∧
    (removeParameter "c" scenarioState).2.parameters
      = scenarioState.parameters.filter (fun e => decide (e.1 ≠ "param:" ++ "c")) ∧
    mapFind ("param:" ++ "c") (removeParameter "c" scenarioState).2.parameters = none ∧
    (∀ k, k ≠ "param:" ++ "c" →
      mapFind k (removeParameter "c" scenarioState).2.parameters
        = mapFind k scenarioState.parameters) ∧
    (removeParameter "c" scenarioState).2.heap = scenarioState.heap ∧
    (removeParameter "c" scenarioState).2.properties = scenarioState.properties ∧
    setParameter "c" none scenarioState = scenarioState) :=
  ⟨by unfold WF; decide, setParameter_removeParameter scenarioState "c" 3 (by unfold WF; decide)⟩

/-- Set, remove, remove again, evaluated on the two-parameter scenario. -/
theorem set_remove_remove :
    (setParameter "c" (some 3) scenarioState).parameters
      = [("param:a", 1), ("param:b", 2), ("param:c", 3)] ∧
    (removeParameter "b" (setParameter "c" (some 3) scenarioState)).1 = true ∧
    (removeParameter "b" (setParameter "c" (some 3) scenarioState)).2.parameters
      = [("param:a", 1), ("param:c", 3)] ∧
    (removeParameter "b"
      (removeParameter "b" (setParameter "c" (some 3) scenarioState)).2).1 = false ∧
    (removeParameter "b" (setParameter "c" (some 3) scenarioState)).2.heap.refCount 2 = 1 := by
  decide

/-! ## `exceptionClear` -/

/-- C10: from any state (snapshot held or not, exception pending or not)
`exceptionClear()` leaves no snapshot and nothing pending, so `exceptionOccurred()`
is false, `exceptionCount()` is 0, `getErrorCode(i)` and `getErrorMessage(i)` are
null for every `i`; and a second `exceptionClear()` changes nothing further. -/
theorem exceptionClear_clean (s : State) :
    (exceptionClear s).proc.exception = none ∧
    (exceptionClear s).env.pending = none ∧
    exceptionOccurred (exceptionClear s) = false ∧
    exceptionCount (exceptionClear s) = 0 ∧
    (∀ i : Int, getErrorCode i (exceptionClear s) = none ∧
      getErrorMessage i (exceptionClear s) = none) ∧
    exceptionClear (exceptionClear s) = exceptionClear s := by
  have hex : (exceptionClear s).proc.exception = none := by
    unfold exceptionClear
    cases h : s.proc.exception <;> simp [h]
  have hp : (exceptionClear s).env.pending = none := by
    unfold exceptionClear
    cases h : s.proc.exception <;> rfl
  refine ⟨hex, hp, (clean_of_no_snapshot _ hex hp).1, (clean_of_no_snapshot _ hex hp).2, ?_, ?_⟩
  · intro i
    simp [getErrorCode, getErrorMessage, hex]
  · generalize exceptionClear s = t at hex hp
    obtain ⟨proc, parameters, properties, cwdV, outputFile, env, heap, cerr⟩ := t
    obtain ⟨pending, calls⟩ := env
    simp only at hex hp
    subst hp
    simp [exceptionClear, hex, JEnv.ExceptionClear]

end SchemaValidator
